import Mathlib

/-!
Verification of the SuperBatchVideoCompressor core against its
natural-language specification.

The development shallow-embeds the relevant Python functions:

* `SBVC.calculate_target_bitrate`  — `src/SBVC.py`, `calculate_target_bitrate`
* `SBVC.add_ignore_decode_errors_flags`, `SBVC.is_decode_corruption_error`,
  `SBVC.parse_bitrate_to_bps` — declared in `src/core/encoder.py`, whose file is
  not part of the provided sources; these are modelled from the spec.
* `SBVC.get_audio_bitrate`, `SBVC.get_video_metadata_batch` — `src/core/video.py`
* `SBVC.resolve_output_paths` — `src/core/compressor.py`
* `SBVC.runEncodePhase`, `SBVC.commitPhase` — the execution/commit portion of
  `encode_file` in `src/service.py`

Machine integers are modelled as `Nat`/`Int`; Python floats appearing in the
probed metadata are modelled as `Rat` (the operations used on them — parsing,
comparison, scaling by 10, floor — are exact).  External effects (subprocess
execution, the filesystem) are modelled by explicit oracles and state passing.
-/

namespace SBVC

/-! ## Bitrate planning (`src/SBVC.py`, `calculate_target_bitrate`) -/

/-- `MIN_BITRATE = 500000` from `src/SBVC.py`. -/
def MIN_BITRATE : Nat := 500000

/-- Resolution-tier cap chosen from the short side, as in
`calculate_target_bitrate` (`src/SBVC.py`). -/
def tier_cap (width height : Nat) : Nat :=
  let short_side := min width height
  if short_side ≤ 720 then 1500000
  else if short_side ≤ 1080 then 3000000
  else if short_side ≤ 1440 then 5000000
  else 9000000

/-- `calculate_target_bitrate` from `src/SBVC.py`.  `BITRATE_RATIO = 0.5`, so
`int(original_bitrate * 0.5)` is natural-number division by two. -/
def calculate_target_bitrate (original_bitrate width height : Nat)
    (force_bitrate : Bool) (forced_value : Nat) : Nat :=
  if force_bitrate then forced_value
  else
    let max_bitrate := tier_cap width height
    let new_bitrate := original_bitrate / 2
    max MIN_BITRATE (min new_bitrate max_bitrate)

/-! ## Corruption-tolerance flag injection

`add_ignore_decode_errors_flags` and `is_decode_corruption_error` live in
`src/core/encoder.py`, which is not among the provided source files (only its
tests in `tests/test_encoder.py` and its caller `src/service.py` are).  They
are modelled from the spec below. -/

/-- The two tolerance flag pairs, in the order the spec lists them. -/
def ignoreFlags : List String :=
  ["-fflags", "+discardcorrupt", "-err_detect", "ignore_err"]

/-- `hasPair cmd x y` holds when `x` immediately followed by `y` occurs in
`cmd`, i.e. the flag pair is already present. -/
def hasPair : List String → String → String → Bool
  | a :: b :: rest, x, y => (a = x && b = y) || hasPair (b :: rest) x y
  | _, _, _ => false

/-- Insert the tolerance flags immediately before the first `-i` argument;
a command without `-i` is returned unchanged. -/
def insertFlagsBeforeInput : List String → List String
  | [] => []
  | a :: rest =>
      if a = "-i" then ignoreFlags ++ a :: rest
      else a :: insertFlagsBeforeInput rest

/-- Modelled from the spec: `add_ignore_decode_errors_flags` is defined in
`src/core/encoder.py`, which is missing from the provided sources.  Per the
spec it injects `-fflags +discardcorrupt` and `-err_detect ignore_err` before
the `-i` argument and does not duplicate already-present flags. -/
def add_ignore_decode_errors_flags (cmd : List String) : List String :=
  if hasPair cmd "-fflags" "+discardcorrupt" && hasPair cmd "-err_detect" "ignore_err"
  then cmd
  else insertFlagsBeforeInput cmd

/-- Substring containment on character lists (Python `in`). -/
def containsSub (hay needle : List Char) : Bool :=
  if needle.isPrefixOf hay then true
  else
    match hay with
    | [] => false
    | _ :: t => containsSub t needle

/-- Modelled from the spec: `is_decode_corruption_error` is defined in
`src/core/encoder.py`, which is missing from the provided sources.  Per the
spec (§4.4) a stderr tail is classified `DecodeCorruption` when it contains one
of the corruption markers. -/
def is_decode_corruption_error (stderr : String) : Bool :=
  ["Invalid data found when processing input",
   "error while decoding",
   "corrupt",
   "non monotonically increasing dts"].any
    (fun marker => containsSub stderr.data marker.data)

/-! ### Structural lemmas about the flag injection -/

theorem hasPair_cons {l : List String} {x y : String} (a : String)
    (h : hasPair l x y = true) : hasPair (a :: l) x y = true := by
  cases l with
  | nil => simp [hasPair] at h
  | cons b rest => simp [hasPair, h]

theorem hasPair_append (pre post : List String) (x y : String) :
    hasPair (pre ++ x :: y :: post) x y = true := by
  induction pre with
  | nil => simp [hasPair]
  | cons a pre ih => exact hasPair_cons a ih

theorem insertFlags_of_not_mem {cmd : List String} (h : "-i" ∉ cmd) :
    insertFlagsBeforeInput cmd = cmd := by
  induction cmd with
  | nil => rfl
  | cons a rest ih =>
      have ha : a ≠ "-i" := fun hc => h (hc ▸ List.mem_cons_self a rest)
      have hr : "-i" ∉ rest := fun hc => h (List.mem_cons_of_mem a hc)
      simp [insertFlagsBeforeInput, fun hc : a = "-i" => ha hc, ih hr]

theorem insertFlags_of_mem {cmd : List String} (h : "-i" ∈ cmd) :
    ∃ pre post, cmd = pre ++ "-i" :: post ∧ "-i" ∉ pre ∧
      insertFlagsBeforeInput cmd = pre ++ ignoreFlags ++ "-i" :: post := by
  induction cmd with
  | nil => cases h
  | cons a rest ih =>
      by_cases ha : a = "-i"
      · exact ⟨[], rest, by simp [ha], by simp, by simp [insertFlagsBeforeInput, ha]⟩
      · have hr : "-i" ∈ rest := by
          rcases List.mem_cons.mp h with h1 | h1
          · exact absurd h1.symm ha
          · exact h1
        obtain ⟨pre, post, hc, hnp, hins⟩ := ih hr
        refine ⟨a :: pre, post, by simp [hc], ?_, ?_⟩
        · intro hm
          rcases List.mem_cons.mp hm with h1 | h1
          · exact ha h1.symm
          · exact hnp h1
        · simp [insertFlagsBeforeInput, ha, hins]

theorem hasPair_insertFlags_fflags {cmd : List String} (h : "-i" ∈ cmd) :
    hasPair (insertFlagsBeforeInput cmd) "-fflags" "+discardcorrupt" = true := by
  obtain ⟨pre, post, _, _, hins⟩ := insertFlags_of_mem h
  rw [hins]
  have : pre ++ ignoreFlags ++ "-i" :: post
      = pre ++ "-fflags" :: "+discardcorrupt" ::
          ("-err_detect" :: "ignore_err" :: "-i" :: post) := by
    simp [ignoreFlags]
  rw [this]
  exact hasPair_append pre _ _ _

theorem hasPair_insertFlags_errdetect {cmd : List String} (h : "-i" ∈ cmd) :
    hasPair (insertFlagsBeforeInput cmd) "-err_detect" "ignore_err" = true := by
  obtain ⟨pre, post, _, _, hins⟩ := insertFlags_of_mem h
  rw [hins]
  have : pre ++ ignoreFlags ++ "-i" :: post
      = (pre ++ ["-fflags", "+discardcorrupt"])
          ++ "-err_detect" :: "ignore_err" :: ("-i" :: post) := by
    simp [ignoreFlags]
  rw [this]
  exact hasPair_append _ _ _ _

/-- Applying the injection to an already-injected command is the identity. -/
theorem add_ignore_flags_idem (cmd : List String) :
    add_ignore_decode_errors_flags (add_ignore_decode_errors_flags cmd)
      = add_ignore_decode_errors_flags cmd := by
  unfold add_ignore_decode_errors_flags
  by_cases hp : hasPair cmd "-fflags" "+discardcorrupt" = true
      ∧ hasPair cmd "-err_detect" "ignore_err" = true
  · simp [hp.1, hp.2]
  · have hcond : (hasPair cmd "-fflags" "+discardcorrupt"
        && hasPair cmd "-err_detect" "ignore_err") = false := by
      cases hx : hasPair cmd "-fflags" "+discardcorrupt" <;>
        cases hy : hasPair cmd "-err_detect" "ignore_err" <;>
          simp_all
    rw [hcond]
    simp only [Bool.false_eq_true, if_false]
    by_cases hi : "-i" ∈ cmd
    · rw [hasPair_insertFlags_fflags hi, hasPair_insertFlags_errdetect hi]
      simp
    · rw [insertFlags_of_not_mem hi, hcond]
      simp only [Bool.false_eq_true, if_false]
      exact insertFlags_of_not_mem hi

theorem min_bitrate_le_tier_cap (width height : Nat) :
    MIN_BITRATE ≤ tier_cap width height := by
  unfold tier_cap MIN_BITRATE
  dsimp only
  split <;> [norm_num; split <;> [norm_num; split <;> norm_num]]

/-- C1: with no `max_by_resolution` override, `calculate_target_bitrate`
returns the forced value when forcing is on, and otherwise
`max(500000, min(⌊original_bitrate·0.5⌋, tier_cap))` with the tier caps
1.5/3/5/9 Mbps chosen from the short side at breakpoints 720/1080/1440; the
non-forced result always lies in `[500000, tier_cap]`. -/
theorem calculate_target_bitrate_spec (b w h forced : Nat) :
    calculate_target_bitrate b w h true forced = forced ∧
    calculate_target_bitrate b w h false forced
      = max 500000 (min (b / 2) (tier_cap w h)) ∧
    tier_cap w h
      = (if min w h ≤ 720 then 1500000
         else if min w h ≤ 1080 then 3000000
         else if min w h ≤ 1440 then 5000000
         else 9000000) ∧
    500000 ≤ calculate_target_bitrate b w h false forced ∧
    calculate_target_bitrate b w h false forced ≤ tier_cap w h := by
  refine ⟨rfl, rfl, rfl, ?_, ?_⟩
  · exact le_max_left _ _
  · show max MIN_BITRATE (min (b / 2) (tier_cap w h)) ≤ tier_cap w h
    exact max_le (min_bitrate_le_tier_cap w h) (min_le_right _ _)

/-- C7: the corruption-tolerance flag injection is idempotent, and an argv
that already carries `-fflags +discardcorrupt -err_detect ignore_err` before
`-i` is returned unchanged. -/
theorem add_ignore_flags_idempotent :
    (∀ cmd : List String,
        add_ignore_decode_errors_flags (add_ignore_decode_errors_flags cmd)
          = add_ignore_decode_errors_flags cmd) ∧
    add_ignore_decode_errors_flags
        ["ffmpeg", "-y", "-fflags", "+discardcorrupt", "-err_detect",
         "ignore_err", "-i", "in.mp4", "-c:v", "hevc_nvenc", "out.mp4"]
      = ["ffmpeg", "-y", "-fflags", "+discardcorrupt", "-err_detect",
         "ignore_err", "-i", "in.mp4", "-c:v", "hevc_nvenc", "out.mp4"] := by
  exact ⟨add_ignore_flags_idem, by decide⟩

/-! ## The execution phase of `encode_file` (`src/service.py`)

`encode_file` runs ffmpeg through `execute_ffmpeg`, then (1) if audio was
downgraded to `copy` it rebuilds the command with the transcode audio args and
re-runs once; (2) on a decode-corruption error it injects the tolerance flags
and retries the same attempt up to `max_ignore_retries_per_method` times.
Subprocess execution is modelled by an oracle `exec : Nat → Bool × String`
giving the outcome (success, stderr) of the n-th invocation of the task. -/

/-- One recorded ffmpeg invocation: the argv, the timeout passed to
`execute_ffmpeg`, and the observed outcome. -/
structure ExecCall where
  cmd : List String
  timeout : Int
  ok : Bool
  deriving Repr, DecidableEq

/-- The observable behaviour of the execution phase of `encode_file`:
the initial invocation, the optional audio-transcode re-run, the
tolerance-retry invocations, and the final outcome. -/
structure EncodeTrace where
  firstCall : ExecCall
  audioRetryCall : Option ExecCall
  toleranceCalls : List ExecCall
  success : Bool
  error : String
  deriving Repr, DecidableEq

/-- All ffmpeg invocations of the trace, in order. -/
def EncodeTrace.allCalls (t : EncodeTrace) : List ExecCall :=
  t.firstCall :: (t.audioRetryCall.toList ++ t.toleranceCalls)

/-- The command the tolerance injection is applied to: the audio-retry command
if that re-run happened, the initial command otherwise. -/
def EncodeTrace.preToleranceCmd (t : EncodeTrace) (cmd0 : List String) : List String :=
  (t.audioRetryCall.map ExecCall.cmd).getD cmd0

/-- The `for attempt in range(1, max_ignore_retries_per_method + 1)` loop of
`encode_file`: run the tolerant command, stopping at the first success. -/
def toleranceLoop (tolerant : List String) (tmo : Int) (exec : Nat → Bool × String) :
    Nat → Nat → Bool × String → List ExecCall × Bool × String
  | 0, _, se => ([], se.1, se.2)
  | n + 1, idx, _ =>
      let se := exec idx
      let call : ExecCall := ⟨tolerant, tmo, se.1⟩
      if se.1 then ([call], true, se.2)
      else
        let rest := toleranceLoop tolerant tmo exec n (idx + 1) se
        (call :: rest.1, rest.2.1, rest.2.2)

/-- The decode-corruption recovery block of `encode_file`: guarded by
`retry_decode_errors_with_ignore`, a positive retry budget and the stderr
classification; skipped entirely when the flag injection leaves the command
unchanged. -/
def tolerancePhase (cmd1 : List String) (retryEnabled : Bool) (n : Nat)
    (tmo : Int) (exec : Nat → Bool × String) (idx : Nat) (s1 : Bool) (e1 : String) :
    List ExecCall × Bool × String :=
  if !s1 && retryEnabled && decide (0 < n) && is_decode_corruption_error e1 then
    let tolerant := add_ignore_decode_errors_flags cmd1
    if tolerant = cmd1 then ([], s1, e1)
    else toleranceLoop tolerant tmo exec n idx (s1, e1)
  else ([], s1, e1)

/-- The execution phase of `encode_file`: initial run, audio-copy fallback
re-run (once, regardless of the kind of failure), then tolerance retries.
`retryCmd` is the command rebuilt with the transcode audio args (`none` both
when no audio fallback was recorded and when the rebuild returned `None`). -/
def runEncodePhase (cmd0 : List String) (audio_copy_fallback : Bool)
    (retryCmd : Option (List String)) (retry_decode_errors_with_ignore : Bool)
    (max_ignore_retries : Nat) (tmo : Int) (exec : Nat → Bool × String) :
    EncodeTrace :=
  let r0 := exec 0
  let first : ExecCall := ⟨cmd0, tmo, r0.1⟩
  let ap : List String × Option ExecCall × Bool × String × Nat :=
    if !r0.1 && audio_copy_fallback then
      match retryCmd with
      | some rc =>
          let r1 := exec 1
          (rc, some ⟨rc, tmo, r1.1⟩, r1.1, r1.2, 2)
      | none => (cmd0, none, r0.1, r0.2, 1)
    else (cmd0, none, r0.1, r0.2, 1)
  match ap with
  | (cmd1, audioCall, s1, e1, idx) =>
      let tp := tolerancePhase cmd1 retry_decode_errors_with_ignore
        max_ignore_retries tmo exec idx s1 e1
      ⟨first, audioCall, tp.1, tp.2.1, tp.2.2⟩

/-! ### Lemmas about the tolerance loop and phase -/

theorem toleranceLoop_length (tolerant : List String) (tmo : Int)
    (exec : Nat → Bool × String) :
    ∀ (n idx : Nat) (se : Bool × String),
      (toleranceLoop tolerant tmo exec n idx se).1.length ≤ n := by
  intro n
  induction n with
  | zero => intro idx se; simp [toleranceLoop]
  | succ n ih =>
      intro idx se
      simp only [toleranceLoop]
      split
      · simp
      · simpa using Nat.succ_le_succ (ih (idx + 1) (exec idx))

theorem toleranceLoop_calls (tolerant : List String) (tmo : Int)
    (exec : Nat → Bool × String) :
    ∀ (n idx : Nat) (se : Bool × String),
      ∀ c ∈ (toleranceLoop tolerant tmo exec n idx se).1,
        c.cmd = tolerant ∧ c.timeout = tmo := by
  intro n
  induction n with
  | zero => intro idx se c hc; simp [toleranceLoop] at hc
  | succ n ih =>
      intro idx se c hc
      simp only [toleranceLoop] at hc
      split at hc
      · rcases List.mem_singleton.mp hc with rfl; exact ⟨rfl, rfl⟩
      · rcases List.mem_cons.mp hc with rfl | hc
        · exact ⟨rfl, rfl⟩
        · exact ih (idx + 1) (exec idx) c hc

theorem toleranceLoop_stops (tolerant : List String) (tmo : Int)
    (exec : Nat → Bool × String) :
    ∀ (n idx : Nat) (se : Bool × String),
      ∀ c ∈ (toleranceLoop tolerant tmo exec n idx se).1.dropLast,
        c.ok = false := by
  intro n
  induction n with
  | zero => intro idx se c hc; simp [toleranceLoop] at hc
  | succ n ih =>
      intro idx se c hc
      simp only [toleranceLoop] at hc
      split at hc
      · simp at hc
      · rename_i hfail
        rcases hrest : (toleranceLoop tolerant tmo exec n (idx + 1) (exec idx)).1
          with _ | ⟨d, ds⟩
        · rw [hrest] at hc; simp at hc
        · rw [hrest] at hc
          rw [List.dropLast_cons₂] at hc
          rcases List.mem_cons.mp hc with rfl | hc
          · simpa using hfail
          · have := ih (idx + 1) (exec idx) c
            rw [hrest] at this
            exact this hc

theorem tolerancePhase_length (cmd1 : List String) (re : Bool) (n : Nat)
    (tmo : Int) (exec : Nat → Bool × String) (idx : Nat) (s1 : Bool) (e1 : String) :
    (tolerancePhase cmd1 re n tmo exec idx s1 e1).1.length ≤ n := by
  unfold tolerancePhase
  split
  · dsimp only
    split
    · simp
    · exact toleranceLoop_length _ _ _ _ _ _
  · simp

theorem tolerancePhase_calls (cmd1 : List String) (re : Bool) (n : Nat)
    (tmo : Int) (exec : Nat → Bool × String) (idx : Nat) (s1 : Bool) (e1 : String) :
    ∀ c ∈ (tolerancePhase cmd1 re n tmo exec idx s1 e1).1,
      c.cmd = add_ignore_decode_errors_flags cmd1 ∧ c.timeout = tmo ∧
        add_ignore_decode_errors_flags cmd1 ≠ cmd1 := by
  intro c hc
  unfold tolerancePhase at hc
  split at hc
  · dsimp only at hc
    split at hc
    · simp at hc
    · rename_i hne
      obtain ⟨h1, h2⟩ := toleranceLoop_calls _ _ _ _ _ _ c hc
      exact ⟨h1, h2, hne⟩
  · simp at hc

theorem tolerancePhase_stops (cmd1 : List String) (re : Bool) (n : Nat)
    (tmo : Int) (exec : Nat → Bool × String) (idx : Nat) (s1 : Bool) (e1 : String) :
    ∀ c ∈ (tolerancePhase cmd1 re n tmo exec idx s1 e1).1.dropLast,
      c.ok = false := by
  intro c hc
  unfold tolerancePhase at hc
  split at hc
  · dsimp only at hc
    split at hc
    · simp at hc
    · exact toleranceLoop_stops _ _ _ _ _ _ c hc
  · simp at hc

theorem tolerancePhase_unchanged (cmd1 : List String) (re : Bool) (n : Nat)
    (tmo : Int) (exec : Nat → Bool × String) (idx : Nat) (s1 : Bool) (e1 : String)
    (h : add_ignore_decode_errors_flags cmd1 = cmd1) :
    (tolerancePhase cmd1 re n tmo exec idx s1 e1).1 = [] := by
  unfold tolerancePhase
  split
  · dsimp only
    simp [h]
  · rfl

/-- A command actually changed by the injection must contain `-i`, and the
flags land immediately before its first occurrence. -/
theorem add_ignore_flags_changed {cmd : List String}
    (h : add_ignore_decode_errors_flags cmd ≠ cmd) :
    ∃ pre post, cmd = pre ++ "-i" :: post ∧ "-i" ∉ pre ∧
      add_ignore_decode_errors_flags cmd = pre ++ ignoreFlags ++ "-i" :: post := by
  unfold add_ignore_decode_errors_flags at h ⊢
  split at h
  · exact absurd rfl h
  · split
    · rename_i h1 h2; exact absurd h2 h1
    · by_cases hi : "-i" ∈ cmd
      · obtain ⟨pre, post, hc, hnp, hins⟩ := insertFlags_of_mem hi
        exact ⟨pre, post, hc, hnp, hins⟩
      · exact absurd (insertFlags_of_not_mem hi) h

/-- Case analysis of `runEncodePhase`: the trace always consists of the first
call, an optional audio-retry call, and the output of `tolerancePhase` applied
to the command current after the audio phase. -/
theorem runEncodePhase_cases (cmd0 : List String) (fb : Bool)
    (rc : Option (List String)) (re : Bool) (n : Nat) (tmo : Int)
    (exec : Nat → Bool × String) :
    ∃ (cmd1 : List String) (audioCall : Option ExecCall) (s1 : Bool)
      (e1 : String) (idx : Nat),
      runEncodePhase cmd0 fb rc re n tmo exec
        = ⟨⟨cmd0, tmo, (exec 0).1⟩, audioCall,
           (tolerancePhase cmd1 re n tmo exec idx s1 e1).1,
           (tolerancePhase cmd1 re n tmo exec idx s1 e1).2.1,
           (tolerancePhase cmd1 re n tmo exec idx s1 e1).2.2⟩ ∧
      ((audioCall = none ∧ cmd1 = cmd0) ∨
        (∃ rcc, rc = some rcc ∧ audioCall = some ⟨rcc, tmo, (exec 1).1⟩ ∧
          cmd1 = rcc)) := by
  unfold runEncodePhase
  dsimp only
  split
  · cases rc with
    | some c =>
        exact ⟨c, some ⟨c, tmo, (exec 1).1⟩, (exec 1).1, (exec 1).2, 2,
          rfl, Or.inr ⟨c, rfl, rfl, rfl⟩⟩
    | none =>
        exact ⟨cmd0, none, (exec 0).1, (exec 0).2, 1, rfl, Or.inl ⟨rfl, rfl⟩⟩
  · exact ⟨cmd0, none, (exec 0).1, (exec 0).2, 1, rfl, Or.inl ⟨rfl, rfl⟩⟩

theorem runEncodePhase_tolerance_length (cmd0 : List String) (fb : Bool)
    (rc : Option (List String)) (re : Bool) (n : Nat) (tmo : Int)
    (exec : Nat → Bool × String) :
    (runEncodePhase cmd0 fb rc re n tmo exec).toleranceCalls.length ≤ n := by
  obtain ⟨cmd1, audioCall, s1, e1, idx, heq, _⟩ :=
    runEncodePhase_cases cmd0 fb rc re n tmo exec
  rw [heq]
  exact tolerancePhase_length _ _ _ _ _ _ _ _

theorem runEncodePhase_timeouts (cmd0 : List String) (fb : Bool)
    (rc : Option (List String)) (re : Bool) (n : Nat) (tmo : Int)
    (exec : Nat → Bool × String) :
    ∀ c ∈ (runEncodePhase cmd0 fb rc re n tmo exec).allCalls, c.timeout = tmo := by
  obtain ⟨cmd1, audioCall, s1, e1, idx, heq, hcase⟩ :=
    runEncodePhase_cases cmd0 fb rc re n tmo exec
  intro c hc
  rw [heq] at hc
  simp only [EncodeTrace.allCalls] at hc
  rcases List.mem_cons.mp hc with rfl | hc
  · rfl
  · rcases List.mem_append.mp hc with hc | hc
    · rcases hcase with ⟨hnone, _⟩ | ⟨rcc, _, hsome, _⟩
      · rw [hnone] at hc; simp at hc
      · rw [hsome] at hc
        simp only [Option.toList_some, List.mem_singleton] at hc
        subst hc; rfl
    · exact (tolerancePhase_calls _ _ _ _ _ _ _ _ c hc).2.1

/-- C2: under `retry_decode_errors_with_ignore` with budget `N ≥ 1`, the
tolerance retry re-executes the injected command at most `N` times, each time
with the tolerance flags placed before `-i`; the loop stops at the first
success; and when the injection leaves the command unchanged no tolerance
retry runs at all. -/
theorem tolerance_retry_spec (cmd0 : List String) (fb : Bool)
    (rc : Option (List String)) (N : Nat) (tmo : Int) (exec : Nat → Bool × String)
    (hN : 1 ≤ N) :
    (runEncodePhase cmd0 fb rc true N tmo exec).toleranceCalls.length ≤ N ∧
    (∀ c ∈ (runEncodePhase cmd0 fb rc true N tmo exec).toleranceCalls,
        c.cmd = add_ignore_decode_errors_flags
            ((runEncodePhase cmd0 fb rc true N tmo exec).preToleranceCmd cmd0) ∧
        ∃ pre post,
          (runEncodePhase cmd0 fb rc true N tmo exec).preToleranceCmd cmd0
              = pre ++ "-i" :: post ∧
          "-i" ∉ pre ∧ c.cmd = pre ++ ignoreFlags ++ "-i" :: post) ∧
    (∀ c ∈ (runEncodePhase cmd0 fb rc true N tmo exec).toleranceCalls.dropLast,
        c.ok = false) ∧
    (add_ignore_decode_errors_flags
          ((runEncodePhase cmd0 fb rc true N tmo exec).preToleranceCmd cmd0)
        = (runEncodePhase cmd0 fb rc true N tmo exec).preToleranceCmd cmd0 →
      (runEncodePhase cmd0 fb rc true N tmo exec).toleranceCalls = []) := by
  obtain ⟨cmd1, audioCall, s1, e1, idx, heq, hcase⟩ :=
    runEncodePhase_cases cmd0 fb rc true N tmo exec
  have hpre : (runEncodePhase cmd0 fb rc true N tmo exec).preToleranceCmd cmd0
      = cmd1 := by
    rw [heq]
    rcases hcase with ⟨hnone, hcmd⟩ | ⟨rcc, _, hsome, hcmd⟩
    · rw [hcmd]; simp [EncodeTrace.preToleranceCmd, hnone]
    · rw [hcmd]; simp [EncodeTrace.preToleranceCmd, hsome]
  rw [heq] at hpre
  rw [heq, hpre]
  refine ⟨?_, ?_, ?_, ?_⟩
  · exact tolerancePhase_length _ _ _ _ _ _ _ _
  · intro c hc
    obtain ⟨hcmd, _, hne⟩ := tolerancePhase_calls _ _ _ _ _ _ _ _ c hc
    obtain ⟨pre, post, hsplit, hnp, hins⟩ := add_ignore_flags_changed hne
    exact ⟨hcmd, pre, post, hsplit, hnp, by rw [hcmd, hins]⟩
  · exact tolerancePhase_stops _ _ _ _ _ _ _ _
  · intro hunch
    exact tolerancePhase_unchanged _ _ _ _ _ _ _ _ hunch

theorem tolerance_retry_spec_witness :
    (runEncodePhase ["ffmpeg", "-y", "-i", "in.mp4", "out.mp4"] false none true 1
        300 (fun _ => (false, "corrupt"))).toleranceCalls.length ≤ 1 :=
  (tolerance_retry_spec ["ffmpeg", "-y", "-i", "in.mp4", "out.mp4"] false none 1
      300 (fun _ => (false, "corrupt")) (by decide)).1

/-! ## Dynamic timeout (`src/service.py`, `encode_file`) -/

/-- The dynamic ffmpeg timeout of `encode_file`: ten times the probed
duration, clamped to `[300, 7200]` seconds, with a 30-second stand-in when the
duration is unknown. -/
def ffmpeg_timeout_of (duration : Rat) : Int :=
  let timeout_duration : Rat := if 0 < duration then duration else 30
  max 300 (min (Int.floor (timeout_duration * 10)) 7200)

/-- C6: for a positive probed duration `d`, the timeout is
`max(300, min(⌊d·10⌋, 7200))`, and this single value is the timeout passed to
every ffmpeg invocation of the task: the initial run, the audio-fallback
re-run and every tolerance retry. -/
theorem dynamic_timeout_spec (d : Rat) (cmd0 : List String) (fb : Bool)
    (rc : Option (List String)) (re : Bool) (N : Nat)
    (exec : Nat → Bool × String) (hd : 0 < d) :
    ffmpeg_timeout_of d = max 300 (min (Int.floor (d * 10)) 7200) ∧
    ∀ c ∈ (runEncodePhase cmd0 fb rc re N (ffmpeg_timeout_of d) exec).allCalls,
      c.timeout = ffmpeg_timeout_of d := by
  constructor
  · unfold ffmpeg_timeout_of
    rw [if_pos hd]
  · exact runEncodePhase_timeouts _ _ _ _ _ _ _

theorem dynamic_timeout_spec_witness :
    ffmpeg_timeout_of 120 = max 300 (min (Int.floor ((120 : Rat) * 10)) 7200) :=
  (dynamic_timeout_spec 120 ["ffmpeg"] false none true 1 (fun _ => (true, ""))
      (by norm_num)).1

/-! ## Normalization of `error_recovery.max_ignore_retries_per_method`
(`src/service.py`, `run_batch`) -/

/-- Digit-string to number, `int()`-style. -/
def digitsToNat (cs : List Char) : Nat :=
  cs.foldl (fun a c => a * 10 + (c.toNat - 48)) 0

/-- Python `int(str)` on an already-stripped string: optional sign followed by
at least one decimal digit. -/
def pyParseInt (s : String) : Option Int :=
  match s.data with
  | [] => none
  | '-' :: rest =>
      if rest ≠ [] ∧ rest.all Char.isDigit then some (-(digitsToNat rest : Int))
      else none
  | '+' :: rest =>
      if rest ≠ [] ∧ rest.all Char.isDigit then some ((digitsToNat rest : Int))
      else none
  | cs =>
      if cs.all Char.isDigit then some ((digitsToNat cs : Int)) else none

/-- A dynamically-typed configuration value as `run_batch` may receive it. -/
inductive PyVal where
  | pint (n : Int)
  | pstr (s : String)
  | pnone
  deriving Repr, DecidableEq

/-- ASCII whitespace, as stripped by Python `int()`. -/
def isSpaceChar (c : Char) : Bool :=
  c = ' ' || c = '\t' || c = '\n' || c = '\r'

/-- Strip surrounding whitespace (structural-recursion form of `strip`). -/
def pyStrip (s : String) : String :=
  ⟨((s.data.dropWhile isSpaceChar).reverse.dropWhile isSpaceChar).reverse⟩

/-- Python `int(value)` for the config value: an `int` passes through, a
string is parsed (surrounding whitespace allowed), `None` fails. -/
def py_int_of : PyVal → Option Int
  | .pint n => some n
  | .pstr s => pyParseInt (pyStrip s)
  | .pnone => none

/-- The normalization in `run_batch` (`src/service.py`): `int(value)` with a
fallback of 1 on `TypeError`/`ValueError`, then clamped by `max(0, ·)`. -/
def effective_max_ignore_retries (v : PyVal) : Int :=
  max 0 ((py_int_of v).getD 1)

/-- C9: the effective tolerance-retry budget is a non-negative integer; an
unconvertible value falls back to 1, a negative integer is clamped to 0, and
the tolerance retry loop body runs at most that many times. -/
theorem retry_budget_spec (v : PyVal) (cmd0 : List String) (fb : Bool)
    (rc : Option (List String)) (re : Bool) (tmo : Int)
    (exec : Nat → Bool × String) :
    0 ≤ effective_max_ignore_retries v ∧
    effective_max_ignore_retries v = max 0 ((py_int_of v).getD 1) ∧
    (py_int_of v = none → effective_max_ignore_retries v = 1) ∧
    (∀ n : Int, v = .pint n → n < 0 → effective_max_ignore_retries v = 0) ∧
    (runEncodePhase cmd0 fb rc re (effective_max_ignore_retries v).toNat tmo
        exec).toleranceCalls.length ≤ (effective_max_ignore_retries v).toNat := by
  refine ⟨le_max_left _ _, rfl, ?_, ?_, ?_⟩
  · intro h
    unfold effective_max_ignore_retries
    rw [h]
    rfl
  · intro n hv hn
    unfold effective_max_ignore_retries
    rw [hv]
    simp only [py_int_of, Option.getD_some]
    omega
  · exact runEncodePhase_tolerance_length _ _ _ _ _ _ _

theorem retry_budget_spec_witness :
    effective_max_ignore_retries (.pstr "not a number") = 1 ∧
    effective_max_ignore_retries (.pint (-3)) = 0 :=
  ⟨(retry_budget_spec (.pstr "not a number") [] false none true 300
        (fun _ => (false, ""))).2.2.1 (by decide),
   (retry_budget_spec (.pint (-3)) [] false none true 300
        (fun _ => (false, ""))).2.2.2.1 (-3) rfl (by decide)⟩

/-! ## Audio argument selection (`src/service.py`, `encode_file`) -/

/-- Lower-case an ASCII letter (Python `.lower()` restricted to ASCII). -/
def asciiLower (c : Char) : Char :=
  if 'A' ≤ c ∧ c ≤ 'Z' then Char.ofNat (c.toNat + 32) else c

/-- Python `.lower()` on the strings appearing here (ASCII). -/
def pyLower (s : String) : String :=
  ⟨s.data.map asciiLower⟩

/-- The `audio` sub-dictionary of the encoding config, with the keys the
service reads. -/
structure AudioCfg where
  mode : Option String
  enabled : Option Bool
  copy_policy : Option String
  codec : Option String
  target_codec : Option String
  bitrate : Option String
  target_bitrate : Option String
  deriving Repr, DecidableEq

/-- `normalize_audio_mode` from `src/service.py`: falsy values become
`"transcode"`, the result is stripped and lower-cased, and anything outside
`{off, copy, transcode, auto}` becomes `"transcode"`. -/
def normalize_audio_mode (value : Option String) : String :=
  let raw := match value with
    | none => "transcode"
    | some v => if v = "" then "transcode" else v
  let mode := pyLower (pyStrip raw)
  if mode = "off" || mode = "copy" || mode = "transcode" || mode = "auto"
  then mode else "transcode"

/-- `resolve_audio_mode` from `src/service.py`, including the two
backwards-compatibility fallbacks (`enabled=false` → off,
`copy_policy != off` → auto). -/
def resolve_audio_mode (cfg : AudioCfg) : String :=
  if cfg.mode ≠ none ∧ cfg.mode ≠ some "" ∧ cfg.mode ≠ some "null" then
    normalize_audio_mode cfg.mode
  else if cfg.enabled = some false then "off"
  else
    let cp := pyLower (pyStrip (cfg.copy_policy.getD "off"))
    if cp ≠ "" ∧ cp ≠ "off" then "auto" else "transcode"

/-- Python `a or b` for an optional string. -/
def orStr (a : Option String) (b : String) : String :=
  match a with
  | some s => if s = "" then b else s
  | none => b

/-- `build_audio_args` from `src/service.py`.  `fallback_bitrate` stands for
`encoding_cfg.get("audio_bitrate") or audio_bitrate`, the last link of the
bitrate fallback chain. -/
def build_audio_args (cfg : AudioCfg) (fallback_bitrate : String)
    (mode : String) : List String :=
  let m := normalize_audio_mode (some mode)
  if m = "off" then ["-an"]
  else if m = "copy" then ["-c:a", "copy"]
  else
    let codec0 := pyStrip (orStr cfg.codec (orStr cfg.target_codec "aac"))
    let codec := if codec0 = "" then "aac" else codec0
    let bitrate := match cfg.bitrate with
      | some b => b
      | none =>
          match cfg.target_bitrate with
          | some b => b
          | none => fallback_bitrate
    if bitrate ≠ "" ∧ bitrate ≠ "null" then ["-c:a", codec, "-b:a", bitrate]
    else ["-c:a", codec]

/-- `s.endsWith suffix` in structural form. -/
def strEndsWith (s suffix : String) : Bool :=
  suffix.data.isSuffixOf s.data

/-- Drop the last `n` characters. -/
def strDropRight (s : String) (n : Nat) : String :=
  ⟨s.data.take (s.data.length - n)⟩

/-- Modelled from the spec: `parse_bitrate_to_bps` is defined in
`src/core/encoder.py`, which is missing from the provided sources.  Behaviour
from the spec and `tests/test_audio_bitrate.py`: `"128k"`/`"128kbps"` →
128000, `"1M"`/`"2m"` → millions, plain integers pass through,
`None`/`""`/`"null"`/unparseable → `None`. -/
def parse_bitrate_to_bps (v : Option String) : Option Int :=
  match v with
  | none => none
  | some s0 =>
      let s := pyLower (pyStrip s0)
      if s = "" || s = "null" then none
      else if strEndsWith s "kbps" then
        (pyParseInt (strDropRight s 4)).map (· * 1000)
      else if strEndsWith s "mbps" then
        (pyParseInt (strDropRight s 4)).map (· * 1000000)
      else if strEndsWith s "k" then
        (pyParseInt (strDropRight s 1)).map (· * 1000)
      else if strEndsWith s "m" then
        (pyParseInt (strDropRight s 1)).map (· * 1000000)
      else pyParseInt s

/-- Python `list.index` (first occurrence). -/
def pyIndexOf (x : String) : List String → Option Nat
  | [] => none
  | a :: rest => if a = x then some 0 else (pyIndexOf x rest).map (· + 1)

/-- The target audio bitrate extracted from the transcode args in
`encode_file`: the value following the first `-b:a`, if any. -/
def target_bps_of (args : List String) : Option Int :=
  match pyIndexOf "-b:a" args with
  | none => none
  | some idx =>
      if idx + 1 < args.length then parse_bitrate_to_bps (args.get? (idx + 1))
      else none

/-- The audio-argument selection of `encode_file` (`src/service.py`): returns
`(audio_args, audio_copy_fallback, retry_audio_args)`.  In `auto` mode copy is
tried first; in `transcode` mode, when the probed source audio bitrate is
known and ≤ the parsed target, copy is silently substituted and the transcode
args are remembered for the one-shot retry. -/
def select_audio_plan (cfg : AudioCfg) (fallback_bitrate : String)
    (source_audio_bitrate : Option Int) : List String × Bool × Option (List String) :=
  let audio_mode := resolve_audio_mode cfg
  if audio_mode = "auto" then
    (build_audio_args cfg fallback_bitrate "copy", true,
      some (build_audio_args cfg fallback_bitrate "transcode"))
  else if audio_mode = "transcode" then
    let t := build_audio_args cfg fallback_bitrate "transcode"
    let target_bps := target_bps_of t
    let source := if target_bps.isSome then source_audio_bitrate else none
    match source, target_bps with
    | some sb, some tb =>
        if sb ≤ tb then
          (build_audio_args cfg fallback_bitrate "copy", true, some t)
        else (t, false, none)
    | _, _ => (t, false, none)
  else (build_audio_args cfg fallback_bitrate audio_mode, false, none)

theorem build_audio_args_copy (cfg : AudioCfg) (fbr : String) :
    build_audio_args cfg fbr "copy" = ["-c:a", "copy"] := rfl

theorem target_bps_of_pair (c : String) : target_bps_of ["-c:a", c] = none := by
  by_cases hc : c = "-b:a" <;> simp [target_bps_of, pyIndexOf, hc]

theorem build_audio_args_transcode_shape (cfg : AudioCfg) (fbr : String) :
    (∃ codec, build_audio_args cfg fbr "transcode" = ["-c:a", codec]) ∨
    ∃ codec rate,
      build_audio_args cfg fbr "transcode" = ["-c:a", codec, "-b:a", rate] := by
  unfold build_audio_args
  dsimp only
  rw [show normalize_audio_mode (some "transcode") = "transcode" from rfl]
  rw [if_neg (by decide : ¬("transcode" = "off")),
    if_neg (by decide : ¬("transcode" = "copy"))]
  split
  · right; exact ⟨_, _, rfl⟩
  · left; exact ⟨_, rfl⟩

theorem runEncodePhase_firstCall (cmd0 : List String) (fb : Bool)
    (rc : Option (List String)) (re : Bool) (n : Nat) (tmo : Int)
    (exec : Nat → Bool × String) :
    (runEncodePhase cmd0 fb rc re n tmo exec).firstCall
      = ⟨cmd0, tmo, (exec 0).1⟩ := by
  obtain ⟨cmd1, a, s1, e1, idx, heq, _⟩ :=
    runEncodePhase_cases cmd0 fb rc re n tmo exec
  rw [heq]

theorem runEncodePhase_audioRetry_fail (cmd0 rcmd : List String) (re : Bool)
    (n : Nat) (tmo : Int) (exec : Nat → Bool × String)
    (h : (exec 0).1 = false) :
    (runEncodePhase cmd0 true (some rcmd) re n tmo exec).audioRetryCall
      = some ⟨rcmd, tmo, (exec 1).1⟩ := by
  unfold runEncodePhase
  dsimp only
  rw [h]
  simp

theorem runEncodePhase_audioRetry_succ (cmd0 : List String) (fb : Bool)
    (rc : Option (List String)) (re : Bool) (n : Nat) (tmo : Int)
    (exec : Nat → Bool × String) (h : (exec 0).1 = true) :
    (runEncodePhase cmd0 fb rc re n tmo exec).audioRetryCall = none := by
  unfold runEncodePhase
  dsimp only
  rw [h]
  simp

/-- C8: in `transcode` audio mode with known source audio bitrate ≤ the parsed
target, the first command carries `-c:a copy` instead of the transcode args,
and on any failure of that run the command is rebuilt exactly once with the
`-c:a <codec> -b:a <rate>` transcode args and re-run. -/
theorem audio_smart_downgrade_spec (cfg : AudioCfg) (fbr : String)
    (sb tb : Int) (src : Option Int) (pre tail : List String)
    (re : Bool) (N : Nat) (tmo : Int) (exec : Nat → Bool × String)
    (hmode : resolve_audio_mode cfg = "transcode")
    (htarget : target_bps_of (build_audio_args cfg fbr "transcode") = some tb)
    (hsrc : src = some sb) (hle : sb ≤ tb) :
    select_audio_plan cfg fbr src
      = (["-c:a", "copy"], true, some (build_audio_args cfg fbr "transcode")) ∧
    (∃ codec rate,
      build_audio_args cfg fbr "transcode" = ["-c:a", codec, "-b:a", rate]) ∧
    (runEncodePhase (pre ++ (select_audio_plan cfg fbr src).1 ++ tail)
        (select_audio_plan cfg fbr src).2.1
        ((select_audio_plan cfg fbr src).2.2.map (fun a => pre ++ a ++ tail))
        re N tmo exec).firstCall
      = ⟨pre ++ ["-c:a", "copy"] ++ tail, tmo, (exec 0).1⟩ ∧
    ((exec 0).1 = false →
      (runEncodePhase (pre ++ (select_audio_plan cfg fbr src).1 ++ tail)
          (select_audio_plan cfg fbr src).2.1
          ((select_audio_plan cfg fbr src).2.2.map (fun a => pre ++ a ++ tail))
          re N tmo exec).audioRetryCall
        = some ⟨pre ++ build_audio_args cfg fbr "transcode" ++ tail, tmo,
            (exec 1).1⟩) ∧
    ((exec 0).1 = true →
      (runEncodePhase (pre ++ (select_audio_plan cfg fbr src).1 ++ tail)
          (select_audio_plan cfg fbr src).2.1
          ((select_audio_plan cfg fbr src).2.2.map (fun a => pre ++ a ++ tail))
          re N tmo exec).audioRetryCall = none) := by
  have hplan : select_audio_plan cfg fbr src
      = (["-c:a", "copy"], true, some (build_audio_args cfg fbr "transcode")) := by
    unfold select_audio_plan
    dsimp only
    rw [hmode]
    rw [if_neg (by decide : ¬("transcode" = "auto")), if_pos rfl]
    rw [htarget, hsrc]
    simp [hle, build_audio_args_copy]
  have hshape : ∃ codec rate,
      build_audio_args cfg fbr "transcode" = ["-c:a", codec, "-b:a", rate] := by
    rcases build_audio_args_transcode_shape cfg fbr with ⟨c, hcase⟩ | h
    · rw [hcase, target_bps_of_pair] at htarget; cases htarget
    · exact h
  rw [hplan]
  refine ⟨rfl, hshape, ?_, ?_, ?_⟩
  · exact runEncodePhase_firstCall _ _ _ _ _ _ _
  · intro h0
    exact runEncodePhase_audioRetry_fail _ _ _ _ _ _ h0
  · intro h0
    exact runEncodePhase_audioRetry_succ _ _ _ _ _ _ _ h0

theorem audio_smart_downgrade_witness :
    select_audio_plan
        ⟨some "transcode", none, none, some "aac", none, some "128k", none⟩
        "128k" (some 96000)
      = (["-c:a", "copy"], true, some ["-c:a", "aac", "-b:a", "128k"]) := by
  have h := audio_smart_downgrade_spec
    ⟨some "transcode", none, none, some "aac", none, some "128k", none⟩
    "128k" 96000 128000 (some 96000) [] [] true 1 300 (fun _ => (false, ""))
    (by decide) (by decide) rfl (by decide)
  rw [h.1]
  rfl

/-! ## Probing (`src/core/video.py`) -/

/-- Upper-case an ASCII letter (Python `.upper()` restricted to ASCII). -/
def asciiUpper (c : Char) : Char :=
  if 'a' ≤ c ∧ c ≤ 'z' then Char.ofNat (c.toNat - 32) else c

/-- Python `.upper()` on the strings appearing here (ASCII). -/
def pyUpper (s : String) : String :=
  ⟨s.data.map asciiUpper⟩

/-- The wall-clock timeout (seconds) passed to every `ffprobe` invocation in
`src/core/video.py`. -/
def ffprobe_timeout_seconds : Nat := 10

/-- Outcome of one `subprocess.check_output` call. -/
inductive SubprocessOutcome where
  | ok (stdout : String)
  | calledProcessError
  | timeoutExpired
  deriving Repr, DecidableEq

/-- `get_audio_bitrate` from `src/core/video.py`: decode and strip the probe
output; empty or (case-insensitive) `N/A` → `None`; then `int(output)`, with
`ValueError` also mapped to `None`.  The function is total: no outcome
raises. -/
def get_audio_bitrate (o : SubprocessOutcome) : Option Int :=
  match o with
  | .calledProcessError => none
  | .timeoutExpired => none
  | .ok stdout =>
      let output := pyStrip stdout
      if output = "" || pyUpper output = "N/A" then none
      else pyParseInt output

/-- C10: `get_audio_bitrate` never raises and returns `None` (not 0) when the
probe call fails, times out (10-second limit), prints an empty string or
prints `N/A` case-insensitively; when the stripped output is an integer
literal it returns that bitrate. -/
theorem get_audio_bitrate_spec :
    ffprobe_timeout_seconds = 10 ∧
    get_audio_bitrate .calledProcessError = none ∧
    get_audio_bitrate .timeoutExpired = none ∧
    (∀ out, pyStrip out = "" → get_audio_bitrate (.ok out) = none) ∧
    (∀ out, pyUpper (pyStrip out) = "N/A" → get_audio_bitrate (.ok out) = none) ∧
    (∀ out n, pyParseInt (pyStrip out) = some n →
      pyUpper (pyStrip out) ≠ "N/A" → get_audio_bitrate (.ok out) = some n) := by
  refine ⟨rfl, rfl, rfl, ?_, ?_, ?_⟩
  · intro out h
    simp [get_audio_bitrate, h]
  · intro out h
    simp [get_audio_bitrate, h]
  · intro out n hparse hna
    have hne : pyStrip out ≠ "" := by
      intro h0
      rw [h0] at hparse
      cases hparse
    simp [get_audio_bitrate, hne, hna, hparse]

theorem get_audio_bitrate_spec_witness :
    get_audio_bitrate (.ok "128000\n") = some 128000 ∧
    get_audio_bitrate (.ok "N/A\n") = none :=
  ⟨get_audio_bitrate_spec.2.2.2.2.2 "128000\n" 128000 (by decide) (by decide),
   get_audio_bitrate_spec.2.2.2.2.1 "N/A\n" (by decide)⟩

/-! ### `get_video_metadata_batch` -/

/-- A primitive JSON value in the ffprobe response (number or string). -/
inductive JPrim where
  | jnum (n : Int)
  | jstr (s : String)
  deriving Repr, DecidableEq

/-- One entry of `streams` with the keys the parser reads. -/
structure JStream where
  codec_type : Option String
  codec_name : Option String
  width : Option JPrim
  height : Option JPrim
  r_frame_rate : Option String
  bit_rate : Option JPrim
  deriving Repr, DecidableEq

/-- The `format` object with the keys the parser reads. -/
structure JFormat where
  bit_rate : Option JPrim
  duration : Option JPrim
  deriving Repr, DecidableEq

/-- Parsed ffprobe JSON. -/
structure FFProbeData where
  streams : List JStream
  format : JFormat
  deriving Repr, DecidableEq

/-- The metadata dictionary built by `get_video_metadata_batch`. -/
structure Metadata where
  bitrate : Int
  duration : Rat
  width : Int
  height : Int
  codec : String
  fps : Rat
  audio_bitrate : Option Int
  deriving Repr, DecidableEq

/-- `default_metadata` from `src/core/video.py`. -/
def default_metadata : Metadata :=
  ⟨3000000, 0, 1920, 1080, "unknown", 30, none⟩

/-- Python `int(x)` on a JSON value. -/
def pyIntOfJson (p : JPrim) : Option Int :=
  match p with
  | .jnum n => some n
  | .jstr s => pyParseInt (pyStrip s)

/-- Split at the first `'.'`. -/
def splitDot : List Char → List Char × Option (List Char)
  | [] => ([], none)
  | c :: rest =>
      if c = '.' then ([], some rest)
      else
        let r := splitDot rest
        (c :: r.1, r.2)

/-- Unsigned decimal literal (`"1"`, `"1.5"`, `"1."`, `".5"`). -/
def parseUnsignedRat (cs : List Char) : Option Rat :=
  match splitDot cs with
  | (intPart, none) =>
      if intPart ≠ [] ∧ intPart.all Char.isDigit then
        some ((digitsToNat intPart : Rat))
      else none
  | (intPart, some fracPart) =>
      if (intPart ≠ [] ∨ fracPart ≠ []) ∧ intPart.all Char.isDigit ∧
          fracPart.all Char.isDigit then
        some ((digitsToNat intPart : Rat)
          + (digitsToNat fracPart : Rat) / ((10 : Rat) ^ fracPart.length))
      else none

/-- Python `float(str)` on the decimal literals ffprobe emits. -/
def pyParseFloat (s : String) : Option Rat :=
  match (pyStrip s).data with
  | '-' :: rest => (parseUnsignedRat rest).map (fun q => -q)
  | '+' :: rest => parseUnsignedRat rest
  | cs => parseUnsignedRat cs

/-- Python `float(x)` on a JSON value. -/
def pyFloatOfJson (p : JPrim) : Option Rat :=
  match p with
  | .jnum n => some ((n : Rat))
  | .jstr s => pyParseFloat s

/-- `str.split(sep)` on characters. -/
def splitChar (sep : Char) : List Char → List (List Char)
  | [] => [[]]
  | c :: rest =>
      let r := splitChar sep rest
      if c = sep then [] :: r
      else
        match r with
        | h :: t => (c :: h) :: t
        | [] => [[c]]

/-- The frame-rate computation of `get_video_metadata_batch`: parse
`"num/den"` (or a bare float), falling back to 30.0 on any parse error or a
zero denominator. -/
def fpsOf (r_frame_rate : Option String) : Rat :=
  let fps_str := r_frame_rate.getD "30/1"
  if '/' ∈ fps_str.data then
    match splitChar '/' fps_str.data with
    | [numCs, denCs] =>
        match pyParseFloat ⟨numCs⟩, pyParseFloat ⟨denCs⟩ with
        | some num, some den => if den ≠ 0 then num / den else 30
        | _, _ => 30
    | _ => 30
  else (pyParseFloat fps_str).getD 30

/-- Python truthiness of a JSON value. -/
def jTruthy (p : JPrim) : Bool :=
  match p with
  | .jnum n => n ≠ 0
  | .jstr s => s ≠ ""

/-- A stream object with no keys (`{}` default of the `next(...)` calls). -/
def emptyStream : JStream := ⟨none, none, none, none, none, none⟩

/-- The metadata construction of `get_video_metadata_batch`; `none` models the
`ValueError` that a failing `int()`/`float()` raises, which the caller catches
by returning the sentinel. -/
def metadataOfData (d : FFProbeData) : Option Metadata := do
  let video_stream :=
    (d.streams.find? (fun s => s.codec_type = some "video")).getD emptyStream
  let audio_stream :=
    (d.streams.find? (fun s => s.codec_type = some "audio")).getD emptyStream
  let fps := fpsOf video_stream.r_frame_rate
  let bitrate ← match d.format.bit_rate with
    | none => some 3000000
    | some p => pyIntOfJson p
  let duration ← match d.format.duration with
    | none => some (0 : Rat)
    | some p => pyFloatOfJson p
  let width ← match video_stream.width with
    | none => some 1920
    | some p => pyIntOfJson p
  let height ← match video_stream.height with
    | none => some 1080
    | some p => pyIntOfJson p
  let codec := video_stream.codec_name.getD "unknown"
  let audio_bitrate ← match audio_stream.bit_rate with
    | none => some none
    | some p => if jTruthy p then (pyIntOfJson p).map some else some none
  some ⟨bitrate, duration, width, height, codec, fps, audio_bitrate⟩

/-- Log level of the message emitted by `get_video_metadata_batch`. -/
inductive LogLevel where
  | debug
  | warn
  deriving Repr, DecidableEq

/-- Outcome of the probe invocation and JSON decode. -/
inductive ProbeOutcome where
  | ok (d : FFProbeData)
  | calledProcessError
  | timeoutExpired
  | jsonDecodeError
  deriving Repr, DecidableEq

/-- `get_video_metadata_batch` from `src/core/video.py`: on any probe error,
timeout, JSON decode error or field-conversion error, return the sentinel
defaults and log a warning; otherwise return the parsed metadata.  The
function is total: no outcome raises. -/
def get_video_metadata_batch (o : ProbeOutcome) : Metadata × LogLevel :=
  match o with
  | .calledProcessError => (default_metadata, .warn)
  | .timeoutExpired => (default_metadata, .warn)
  | .jsonDecodeError => (default_metadata, .warn)
  | .ok d =>
      match metadataOfData d with
      | some m => (m, .debug)
      | none => (default_metadata, .warn)

/-- C5: `get_video_metadata_batch` never raises; when the ffprobe call fails,
exceeds the 10-second timeout, or yields unparseable JSON, it returns exactly
the sentinel `{bitrate: 3000000, width: 1920, height: 1080, fps: 30.0,
codec: "unknown", audio_bitrate: None, duration: 0.0}` and logs a warning. -/
theorem probe_failure_sentinel_spec :
    ffprobe_timeout_seconds = 10 ∧
    default_metadata
      = { bitrate := 3000000, duration := 0, width := 1920, height := 1080,
          codec := "unknown", fps := 30, audio_bitrate := none } ∧
    get_video_metadata_batch .calledProcessError = (default_metadata, .warn) ∧
    get_video_metadata_batch .timeoutExpired = (default_metadata, .warn) ∧
    get_video_metadata_batch .jsonDecodeError = (default_metadata, .warn) ∧
    ∀ o, get_video_metadata_batch o = (default_metadata, .warn) ∨
      ∃ d, o = ProbeOutcome.ok d := by
  refine ⟨rfl, rfl, rfl, rfl, rfl, ?_⟩
  intro o
  cases o with
  | ok d => exact Or.inr ⟨d, rfl⟩
  | calledProcessError => exact Or.inl rfl
  | timeoutExpired => exact Or.inl rfl
  | jsonDecodeError => exact Or.inl rfl

/-! ## Temp-file hygiene and atomic commit (`src/service.py`, `encode_file`)

The filesystem is a partial map from paths to (abstract) file contents.  Per
the transcoder contract (§6 of the spec), ffmpeg's positional output argument
is always the temp path, so the execution phase touches the filesystem only at
`temp`; the commit phase then mirrors the tail of `encode_file`. -/

/-- Filesystem state: path → content (`none` = absent). -/
def FS : Type := String → Option Nat

/-- Write (or, with `none`, remove) a path. -/
def fsSet (fs : FS) (p : String) (v : Option Nat) : FS :=
  fun q => if q = p then v else fs q

/-- How a task ends at commit time. -/
inductive CommitStatus where
  | success
  | skipExists
  | failure
  deriving Repr, DecidableEq

/-- The tail of `encode_file`: on failure delete the temp file and fail; on
success honor `skip_existing` at the last moment (remove temp, report
`SKIP_EXISTS`), otherwise `os.replace(temp, out)` — which raises (caught, task
fails) when the temp file is missing. -/
def commitPhase (fs : FS) (ok : Bool) (skip_existing : Bool)
    (temp out : String) : FS × CommitStatus :=
  if !ok then
    (fsSet fs temp none, .failure)
  else if skip_existing && (fs out).isSome then
    (fsSet fs temp none, .skipExists)
  else
    match fs temp with
    | none => (fs, .failure)
    | some v => (fsSet (fsSet fs temp none) out (some v), .success)

/-- The filesystem effect of one `encode_file` run after path resolution:
the ffmpeg invocations leave `tempContent` at the temp path (and touch nothing
else), then the commit phase runs. -/
def encodeFsRun (fs : FS) (tempContent : Option Nat) (ok : Bool)
    (skip_existing : Bool) (temp out : String) : FS × CommitStatus :=
  commitPhase (fsSet fs temp tempContent) ok skip_existing temp out

/-- C3: a failing `encode_file` run leaves the output path exactly as it was
and removes the temp file; and at commit time with `skip_existing` set and the
output already present, the temp file is removed and the task ends
`SKIP_EXISTS` without overwriting the existing output. -/
theorem commitPhase_fail (fs : FS) (ok skip : Bool) (temp out : String)
    (h : ok = false) :
    commitPhase fs ok skip temp out = (fsSet fs temp none, .failure) := by
  unfold commitPhase
  rw [h]
  rfl

theorem commitPhase_skip (fs : FS) (skip : Bool) (temp out : String)
    (h : (skip && (fs out).isSome) = true) :
    commitPhase fs true skip temp out = (fsSet fs temp none, .skipExists) := by
  unfold commitPhase
  simp [h]

theorem commitPhase_replace_missing (fs : FS) (skip : Bool) (temp out : String)
    (h : (skip && (fs out).isSome) = false) (h2 : fs temp = none) :
    commitPhase fs true skip temp out = (fs, .failure) := by
  unfold commitPhase
  simp [h, h2]

theorem commitPhase_replace (fs : FS) (skip : Bool) (temp out : String) (v : Nat)
    (h : (skip && (fs out).isSome) = false) (h2 : fs temp = some v) :
    commitPhase fs true skip temp out
      = (fsSet (fsSet fs temp none) out (some v), .success) := by
  unfold commitPhase
  simp [h, h2]

/-- C3: a failing `encode_file` run leaves the output path exactly as it was
and removes the temp file; and at commit time with `skip_existing` set and the
output already present, the temp file is removed and the task ends
`SKIP_EXISTS` without overwriting the existing output. -/
theorem output_atomicity_spec (fs : FS) (tempContent : Option Nat) (ok : Bool)
    (skip_existing : Bool) (temp out : String) (hne : temp ≠ out) :
    ((encodeFsRun fs tempContent ok skip_existing temp out).2
        = CommitStatus.failure →
      (encodeFsRun fs tempContent ok skip_existing temp out).1 out = fs out ∧
      (encodeFsRun fs tempContent ok skip_existing temp out).1 temp = none) ∧
    (ok = true → skip_existing = true → (fs out).isSome →
      (encodeFsRun fs tempContent ok skip_existing temp out).2
          = CommitStatus.skipExists ∧
      (encodeFsRun fs tempContent ok skip_existing temp out).1 out = fs out ∧
      (encodeFsRun fs tempContent ok skip_existing temp out).1 temp = none) := by
  constructor
  · intro hfail
    cases hok : ok with
    | false =>
        unfold encodeFsRun
        rw [commitPhase_fail _ _ _ _ _ rfl]
        exact ⟨by simp [fsSet, Ne.symm hne], by simp [fsSet]⟩
    | true =>
        unfold encodeFsRun at hfail ⊢
        rw [hok] at hfail
        by_cases hskip :
            (skip_existing && ((fsSet fs temp tempContent) out).isSome) = true
        · rw [commitPhase_skip _ _ _ _ hskip] at hfail
          simp at hfail
        · have hskip' :
              (skip_existing && ((fsSet fs temp tempContent) out).isSome) = false := by
            revert hskip
            cases skip_existing && ((fsSet fs temp tempContent) out).isSome <;> simp
          cases htc : tempContent with
          | none =>
              rw [htc] at hskip' hfail
              have h2 : (fsSet fs temp none) temp = none := by simp [fsSet]
              rw [commitPhase_replace_missing _ _ _ _ hskip' h2]
              exact ⟨by simp [fsSet, Ne.symm hne], h2⟩
          | some v =>
              rw [htc] at hskip' hfail
              have h2 : (fsSet fs temp (some v)) temp = some v := by simp [fsSet]
              rw [commitPhase_replace _ _ _ _ _ hskip' h2] at hfail
              simp at hfail
  · intro hok hskip hsome
    unfold encodeFsRun
    rw [hok]
    have hcond :
        (skip_existing && ((fsSet fs temp tempContent) out).isSome) = true := by
      rw [hskip, Bool.true_and]
      have hfo : fsSet fs temp tempContent out = fs out := by
        simp [fsSet, Ne.symm hne]
      rw [hfo]
      exact hsome
    rw [commitPhase_skip _ _ _ _ hcond]
    exact ⟨rfl, by simp [fsSet, Ne.symm hne], by simp [fsSet]⟩

theorem output_atomicity_spec_witness :
    (encodeFsRun (fun _ => none) (some 7) false true "/out/tmp_a.mp4"
        "/out/a.mp4").1 "/out/a.mp4" = none :=
  ((output_atomicity_spec (fun _ => none) (some 7) false true "/out/tmp_a.mp4"
      "/out/a.mp4" (by decide)).1 (by decide)).1

/-! ## Path resolution (`src/core/compressor.py`, `resolve_output_paths`)

For POSIX-style absolute paths the source takes the lexical branch
(`os.path.normpath` + `PurePath.relative_to`).  A path is modelled at the
component level: a root marker (`dslash` distinguishes the `//`-rooted special
case `normpath` preserves) plus the list of raw components between slashes. -/

/-- A POSIX absolute path: root marker and components. -/
structure PPath where
  dslash : Bool
  comps : List String
  deriving Repr, DecidableEq

/-- A component kept by `os.path.normpath`. -/
def cleanComp (c : String) : Prop := c ≠ "" ∧ c ≠ "." ∧ c ≠ ".."

/-- One step of `os.path.normpath` over an absolute path: drop empty and `.`
components, let `..` pop (or vanish at the root), keep everything else. -/
def normStep (acc : List String) (c : String) : List String :=
  if c = "" ∨ c = "." then acc
  else if c = ".." then acc.dropLast
  else acc ++ [c]

/-- `os.path.normpath` on the component list of an absolute path. -/
def normComps (cs : List String) : List String := cs.foldl normStep []

/-- `os.path.normpath` on an absolute path. -/
def normP (p : PPath) : PPath := ⟨p.dslash, normComps p.comps⟩

/-- `PurePath.relative_to`: defined when the roots agree and the base's
components are a prefix; returns the remaining components. -/
def relTo (p base : PPath) : Option (List String) :=
  if p.dslash == base.dslash && base.comps.isPrefixOf p.comps then
    some (p.comps.drop base.comps.length)
  else none

/-- `str.rfind('.')` on a file name. -/
def rfindDot (cs : List Char) : Option Nat :=
  match cs.reverse.findIdx? (fun c => c = '.') with
  | none => none
  | some j => some (cs.length - 1 - j)

/-- `PurePath.stem` of one name: the name minus its suffix, where a suffix
needs a dot that is neither leading nor trailing. -/
def pathStem (name : String) : String :=
  match rfindDot name.data with
  | none => name
  | some i =>
      if 0 < i ∧ i < name.data.length - 1 then ⟨name.data.take i⟩ else name

/-- `PurePath.stem` of a path (empty for the root). -/
def pStem (p : PPath) : String :=
  match p.comps.getLast? with
  | none => ""
  | some n => pathStem n

/-- `PurePath.with_suffix(".mp4")`: `ValueError` on an empty name. -/
def withSuffixMp4 (p : PPath) : Except String PPath :=
  match p.comps.getLast? with
  | none => .error "empty name"
  | some name => .ok ⟨p.dslash, p.comps.dropLast ++ [pathStem name ++ ".mp4"]⟩

/-- The output path computed before the final escape check: the relative
mirror with the suffix replaced when `keep_structure`, `<stem>.mp4` under the
output root otherwise. -/
def computed_output_path (abs_filepath abs_output : PPath) (keep : Bool)
    (rel : List String) : Except String PPath :=
  if keep then withSuffixMp4 ⟨abs_output.dslash, abs_output.comps ++ rel⟩
  else .ok ⟨abs_output.dslash, abs_output.comps ++ [pStem abs_filepath ++ ".mp4"]⟩

/-- The temp path: sibling of the output named `tmp_` + output basename. -/
def tempPathOf (out : PPath) : PPath :=
  ⟨out.dslash, out.comps.dropLast ++ ["tmp_" ++ out.comps.getLast?.getD ""]⟩

/-- `resolve_output_paths` from `src/core/compressor.py` (lexical branch):
normalize all three paths, require the file inside the input root, build the
output path, re-normalize it and require it inside the output root; return the
output and temp paths. -/
def resolve_output_paths (filepath input_folder output_folder : PPath)
    (keep_structure : Bool) : Except String (PPath × PPath) :=
  let abs_filepath := normP filepath
  let abs_input := normP input_folder
  let abs_output := normP output_folder
  match relTo abs_filepath abs_input with
  | none => .error "file is not inside the input folder"
  | some relative_path =>
      match computed_output_path abs_filepath abs_output keep_structure
          relative_path with
      | .error e => .error e
      | .ok outPath0 =>
          let output_path := normP outPath0
          match relTo output_path abs_output with
          | none => .error "computed output path escapes the output folder"
          | some _ => .ok (output_path, tempPathOf output_path)

/-- The pre-flight of `encode_file`: commands are built and executed only when
`resolve_output_paths` succeeds; its `ValueError` propagates to the task's
exception handler, which fails the task with no subprocess spawned. -/
def encodeFileCalls (resolved : Except String (PPath × PPath))
    (run : PPath × PPath → EncodeTrace) : List ExecCall :=
  match resolved with
  | .error _ => []
  | .ok paths => (run paths).allCalls

/-! ### Normalization lemmas -/

theorem normComps_go_of_clean {cs : List String}
    (h : ∀ c ∈ cs, cleanComp c) :
    ∀ acc : List String, cs.foldl normStep acc = acc ++ cs := by
  induction cs with
  | nil => intro acc; simp
  | cons c cs ih =>
      intro acc
      have hc : cleanComp c := h c (List.mem_cons_self c cs)
      have hstep : normStep acc c = acc ++ [c] := by
        unfold normStep
        rw [if_neg, if_neg hc.2.2]
        rintro (h1 | h1)
        · exact hc.1 h1
        · exact hc.2.1 h1
      have ht : ∀ x ∈ cs, cleanComp x := fun x hx => h x (List.mem_cons_of_mem c hx)
      calc (c :: cs).foldl normStep acc = cs.foldl normStep (normStep acc c) := rfl
        _ = (acc ++ [c]) ++ cs := by rw [hstep, ih ht]
        _ = acc ++ c :: cs := by simp

theorem normComps_of_clean {cs : List String} (h : ∀ c ∈ cs, cleanComp c) :
    normComps cs = cs := by
  simpa using normComps_go_of_clean h []

theorem normStep_mem {acc : List String} {c x : String}
    (hx : x ∈ normStep acc c) : x ∈ acc ∨ (x = c ∧ cleanComp c) := by
  unfold normStep at hx
  split at hx
  · exact Or.inl hx
  · split at hx
    · exact Or.inl (List.dropLast_subset acc hx)
    · rcases List.mem_append.mp hx with h1 | h1
      · exact Or.inl h1
      · rename_i hne hdd
        rcases List.mem_singleton.mp h1 with rfl
        push_neg at hne
        exact Or.inr ⟨rfl, hne.1, hne.2, hdd⟩

theorem normComps_clean :
    ∀ (cs acc : List String), (∀ x ∈ acc, cleanComp x) →
      ∀ x ∈ cs.foldl normStep acc, cleanComp x := by
  intro cs
  induction cs with
  | nil => intro acc hacc x hx; exact hacc x hx
  | cons c cs ih =>
      intro acc hacc x hx
      refine ih (normStep acc c) ?_ x hx
      intro y hy
      rcases normStep_mem hy with h1 | ⟨rfl, hc⟩
      · exact hacc y h1
      · exact hc

theorem normComps_all_clean {cs : List String} :
    ∀ x ∈ normComps cs, cleanComp x :=
  normComps_clean cs [] (by intro x hx; cases hx)

theorem clean_mp4 (s : String) : cleanComp (s ++ ".mp4") := by
  have h4 : (".mp4" : String).length = 4 := rfl
  have hlen : (s ++ ".mp4").length = s.length + 4 := by
    rw [String.length_append, h4]
  have h0 : ("" : String).length = 0 := rfl
  have h1 : ("." : String).length = 1 := rfl
  have h2 : (".." : String).length = 2 := rfl
  refine ⟨?_, ?_, ?_⟩ <;> intro h <;> rw [h] at hlen
  · rw [h0] at hlen; omega
  · rw [h1] at hlen; omega
  · rw [h2] at hlen; omega



theorem relTo_eq_some {p base : PPath} {rel : List String}
    (h : relTo p base = some rel) :
    p.dslash = base.dslash ∧ p.comps = base.comps ++ rel := by
  unfold relTo at h
  split at h
  · rename_i hcond
    injection h with h1
    obtain ⟨hd, hp⟩ := Bool.and_eq_true _ _ |>.mp hcond
    have hd' : p.dslash = base.dslash := beq_iff_eq.mp hd
    obtain ⟨t, ht⟩ := List.isPrefixOf_iff_prefix.mp hp
    have htr : t = rel := by rw [← h1, ← ht, List.drop_left]
    exact ⟨hd', by rw [← ht, htr]⟩
  · cases h

theorem resolve_eq_input_escape {filepath input_folder output_folder : PPath}
    {keep : Bool}
    (h : relTo (normP filepath) (normP input_folder) = none) :
    resolve_output_paths filepath input_folder output_folder keep
      = .error "file is not inside the input folder" := by
  unfold resolve_output_paths
  dsimp only
  rw [h]

theorem resolve_eq_output_err {filepath input_folder output_folder : PPath}
    {keep : Bool} {rel : List String} {e : String}
    (h : relTo (normP filepath) (normP input_folder) = some rel)
    (h2 : computed_output_path (normP filepath) (normP output_folder) keep rel
      = .error e) :
    resolve_output_paths filepath input_folder output_folder keep = .error e := by
  unfold resolve_output_paths
  dsimp only
  rw [h]
  dsimp only
  rw [h2]

theorem resolve_eq_output_escape {filepath input_folder output_folder : PPath}
    {keep : Bool} {rel : List String} {out0 : PPath}
    (h : relTo (normP filepath) (normP input_folder) = some rel)
    (h2 : computed_output_path (normP filepath) (normP output_folder) keep rel
      = .ok out0)
    (h3 : relTo (normP out0) (normP output_folder) = none) :
    resolve_output_paths filepath input_folder output_folder keep
      = .error "computed output path escapes the output folder" := by
  unfold resolve_output_paths
  dsimp only
  rw [h]
  dsimp only
  rw [h2]
  dsimp only
  rw [h3]

theorem resolve_ok_inv {filepath input_folder output_folder : PPath}
    {keep : Bool} {out temp : PPath}
    (h : resolve_output_paths filepath input_folder output_folder keep
      = .ok (out, temp)) :
    ∃ rel out0 r,
      relTo (normP filepath) (normP input_folder) = some rel ∧
      computed_output_path (normP filepath) (normP output_folder) keep rel
        = .ok out0 ∧
      relTo (normP out0) (normP output_folder) = some r ∧
      out = normP out0 ∧ temp = tempPathOf (normP out0) := by
  unfold resolve_output_paths at h
  dsimp only at h
  split at h
  · cases h
  · rename_i rel hrel
    split at h
    · cases h
    · rename_i out0 hout0
      split at h
      · cases h
      · rename_i r hr
        injection h with hpair
        rw [Prod.mk.injEq] at hpair
        exact ⟨rel, out0, r, hrel, hout0, hr, hpair.1.symm, hpair.2.symm⟩

theorem normP_eq_self_of_clean {p : PPath} (h : ∀ c ∈ p.comps, cleanComp c) :
    normP p = p := by
  unfold normP
  rw [normComps_of_clean h]

theorem computed_output_keep_inv {f o : PPath} {rel : List String}
    {out0 : PPath}
    (h : computed_output_path f o true rel = .ok out0) :
    ∃ name, (o.comps ++ rel).getLast? = some name ∧
      out0 = ⟨o.dslash, (o.comps ++ rel).dropLast ++ [pathStem name ++ ".mp4"]⟩ := by
  unfold computed_output_path withSuffixMp4 at h
  rw [if_pos rfl] at h
  dsimp only at h
  split at h
  · cases h
  · rename_i name hname
    injection h with h1
    exact ⟨name, hname, h1.symm⟩

theorem computed_output_flat_inv {f o : PPath} {rel : List String}
    {out0 : PPath}
    (h : computed_output_path f o false rel = .ok out0) :
    out0 = ⟨o.dslash, o.comps ++ [pStem f ++ ".mp4"]⟩ := by
  unfold computed_output_path at h
  rw [if_neg (by simp)] at h
  injection h with h1
  exact h1.symm

theorem rel_clean {f i : PPath} {rel : List String}
    (h : relTo (normP f) (normP i) = some rel) :
    ∀ c ∈ rel, cleanComp c := by
  obtain ⟨_, hcomp⟩ := relTo_eq_some h
  intro c hc
  have hm : c ∈ (normP f).comps := by
    rw [hcomp]
    exact List.mem_append_right _ hc
  exact normComps_all_clean c hm

/-- C4: `resolve_output_paths` (lexical POSIX branch) raises `ValueError` for
every input whose normalized path is not inside the input root and for every
computed output escaping the output root — and no ffmpeg subprocess is spawned
for a refused input — while a normal return yields an output under the output
root (relative mirror with the extension replaced by `.mp4` when
`keep_structure`, `<stem>.mp4` otherwise) and a temp path that is the sibling
named `tmp_` + output basename. -/
theorem resolve_output_paths_spec (filepath input_folder output_folder : PPath)
    (keep_structure : Bool) (run : PPath × PPath → EncodeTrace) :
    (relTo (normP filepath) (normP input_folder) = none →
      resolve_output_paths filepath input_folder output_folder keep_structure
          = .error "file is not inside the input folder" ∧
      encodeFileCalls
        (resolve_output_paths filepath input_folder output_folder keep_structure)
        run = []) ∧
    (∀ rel out0,
      relTo (normP filepath) (normP input_folder) = some rel →
      computed_output_path (normP filepath) (normP output_folder) keep_structure
          rel = .ok out0 →
      relTo (normP out0) (normP output_folder) = none →
      resolve_output_paths filepath input_folder output_folder keep_structure
          = .error "computed output path escapes the output folder" ∧
      encodeFileCalls
        (resolve_output_paths filepath input_folder output_folder keep_structure)
        run = []) ∧
    (∀ out temp,
      resolve_output_paths filepath input_folder output_folder keep_structure
          = .ok (out, temp) →
      (∃ r, relTo out (normP output_folder) = some r) ∧
      temp = ⟨out.dslash,
        out.comps.dropLast ++ ["tmp_" ++ out.comps.getLast?.getD ""]⟩) ∧
    (∀ out temp rel lastc,
      keep_structure = true →
      resolve_output_paths filepath input_folder output_folder keep_structure
          = .ok (out, temp) →
      relTo (normP filepath) (normP input_folder) = some rel →
      rel.getLast? = some lastc →
      out = ⟨(normP output_folder).dslash,
        (normP output_folder).comps ++ rel.dropLast
          ++ [pathStem lastc ++ ".mp4"]⟩) ∧
    (∀ out temp,
      keep_structure = false →
      resolve_output_paths filepath input_folder output_folder keep_structure
          = .ok (out, temp) →
      out = ⟨(normP output_folder).dslash,
        (normP output_folder).comps ++ [pStem (normP filepath) ++ ".mp4"]⟩) := by
  refine ⟨?_, ?_, ?_, ?_, ?_⟩
  · intro h
    have he := @resolve_eq_input_escape filepath input_folder output_folder
      keep_structure h
    exact ⟨he, by rw [he]; rfl⟩
  · intro rel out0 h1 h2 h3
    have he := resolve_eq_output_escape h1 h2 h3
    exact ⟨he, by rw [he]; rfl⟩
  · intro out temp h
    obtain ⟨rel, out0, r, hrel, hout0, hr, hout, htemp⟩ := resolve_ok_inv h
    subst hout
    subst htemp
    exact ⟨⟨r, hr⟩, rfl⟩
  · intro out temp rel lastc hkeep h hrel hlast
    subst hkeep
    obtain ⟨rel', out0, r, hrel', hout0, hr, hout, htemp⟩ := resolve_ok_inv h
    have hrr : rel' = rel := by
      rw [hrel] at hrel'
      injection hrel' with h0
      exact h0.symm
    rw [hrr] at hout0
    obtain ⟨name, hname, hshape⟩ := computed_output_keep_inv hout0
    have hrne : rel ≠ [] := by
      intro h0
      rw [h0] at hlast
      cases hlast
    have hnamel : name = lastc := by
      rw [List.getLast?_append_of_ne_nil _ hrne, hlast] at hname
      injection hname with h0
      exact h0.symm
    subst hnamel
    have hdrop : ((normP output_folder).comps ++ rel).dropLast
        = (normP output_folder).comps ++ rel.dropLast :=
      List.dropLast_append_of_ne_nil _ hrne
    rw [hdrop] at hshape
    have hclean : ∀ c ∈ out0.comps, cleanComp c := by
      rw [hshape]
      intro c hc
      rcases List.mem_append.mp hc with hc1 | hc1
      · rcases List.mem_append.mp hc1 with hc2 | hc2
        · exact normComps_all_clean c hc2
        · exact rel_clean hrel c (List.dropLast_subset rel hc2)
      · rcases List.mem_singleton.mp hc1 with rfl
        exact clean_mp4 _
    rw [hout, normP_eq_self_of_clean hclean, hshape]
  · intro out temp hkeep h
    subst hkeep
    obtain ⟨rel, out0, r, hrel, hout0, hr, hout, htemp⟩ := resolve_ok_inv h
    have hshape := computed_output_flat_inv hout0
    have hclean : ∀ c ∈ out0.comps, cleanComp c := by
      rw [hshape]
      intro c hc
      rcases List.mem_append.mp hc with hc1 | hc1
      · exact normComps_all_clean c hc1
      · rcases List.mem_singleton.mp hc1 with rfl
        exact clean_mp4 _
    rw [hout, normP_eq_self_of_clean hclean, hshape]

theorem resolve_output_paths_spec_witness :
    resolve_output_paths ⟨false, ["in", "..", "..", "etc", "passwd"]⟩
        ⟨false, ["in"]⟩ ⟨false, ["out"]⟩ true
      = .error "file is not inside the input folder" ∧
    encodeFileCalls
      (resolve_output_paths ⟨false, ["in", "..", "..", "etc", "passwd"]⟩
        ⟨false, ["in"]⟩ ⟨false, ["out"]⟩ true)
      (fun _ => ⟨⟨[], 0, false⟩, none, [], false, ""⟩) = [] :=
  (resolve_output_paths_spec ⟨false, ["in", "..", "..", "etc", "passwd"]⟩
      ⟨false, ["in"]⟩ ⟨false, ["out"]⟩ true
      (fun _ => ⟨⟨[], 0, false⟩, none, [], false, ""⟩)).1 (by decide)

end SBVC
